import Mathlib

/-!
# Service metadata generator (libbeat/common/kubernetes/metadata/service.go)

A shallow embedding of the `service` metadata generator and the properties of
its four methods `Generate`, `GenerateECS`, `GenerateK8s`, `GenerateFromName`.

Go maps are modelled as association lists (first binding of a key wins on a
read, an assignment replaces the first binding or appends a new one).  A
`common.MapStr` is either the nil map or a document; a document is a value of
`common.Doc`.  A Go computation either returns or panics (`Outcome`).  Methods
that call a collaborator (the generic resource generator or the store) run in a
small writer monad that records every such call, so that "is not called" is a
statement about the recorded calls.
-/

namespace Beats

/-- How a Go computation ends: it returns a value, or it panics. -/
inductive Outcome (α : Type) where
  | returned (a : α)
  | panicked
deriving DecidableEq

namespace Outcome

/-- Continues with the returned value; a panic propagates. -/
def andThen {α β : Type} (x : Outcome α) (f : α → Outcome β) : Outcome β :=
  match x with
  | returned a => f a
  | panicked => panicked

end Outcome

/-! ## common: documents -/

namespace common

mutual
/-- Go values of type interface held by a document: a scalar (strings stand for
every value that is not a map), a typed nil MapStr, or a nested (non-nil)
MapStr. -/
inductive Value where
  | str (s : String)
  | nilMapStr
  | mapStr (m : Doc)
deriving DecidableEq
/-- A non-nil Go map from string to interface values, as an association list in
insertion order. -/
inductive Doc where
  | nil
  | cons (k : String) (v : Value) (rest : Doc)
deriving DecidableEq
end

namespace Doc

/-- Go comma-ok read of a key: the bound value, or none when the key is absent. -/
def get (k : String) : Doc → Option Value
  | nil => none
  | cons k2 v rest => if k2 = k then some v else get k rest

/-- Go assignment to a key: replaces the existing binding, else adds one. -/
def set (k : String) (v : Value) : Doc → Doc
  | nil => cons k v nil
  | cons k2 v2 rest => if k2 = k then cons k v rest else cons k2 v2 (set k v rest)

/-- Go len of a map. -/
def len : Doc → Nat
  | nil => 0
  | cons _ _ rest => len rest + 1

/-- Top-level keys of a document. -/
def keys : Doc → List String
  | nil => []
  | cons k _ rest => k :: keys rest

/-- The entries of the first document followed by those of the second. -/
def append : Doc → Doc → Doc
  | nil, d => d
  | cons k v rest, d => cons k v (append rest d)

/-- Modelled from the spec: MapStr.DeepUpdate (libbeat/common, not part of the
sources).  The spec gives deep-update semantics: every entry of the argument is
merged into the receiver; nested maps merge key by key, any other conflicting
value is overwritten by the argument's side.  A receiver slot that is absent,
nil or not a map takes the argument's map whole; a typed nil map in the
argument has no keys to merge, so it leaves an existing map as it is. -/
def DeepUpdate (m : Doc) : Doc → Doc
  | nil => m
  | cons k v rest =>
    let merged : Value :=
      match v with
      | .mapStr val =>
        match m.get k with
        | some (.mapStr sub) => .mapStr (DeepUpdate sub val)
        | _ => .mapStr val
      | .nilMapStr =>
        match m.get k with
        | some (.mapStr sub) => .mapStr sub
        | _ => .nilMapStr
      | .str s => .str s
    DeepUpdate (m.set k merged) rest

end Doc

mutual
/-- A value as the generic generator and the label map builder produce it: a
scalar, or a proper map; never a typed nil map. -/
def Value.proper : Value → Bool
  | .str _ => true
  | .nilMapStr => false
  | .mapStr m => Doc.proper m
/-- A document that is a Go map of scalars and maps: at every depth each key is
bound once and no slot holds a typed nil map. -/
def Doc.proper : Doc → Bool
  | .nil => true
  | .cons k v rest => Value.proper v && ((Doc.get k rest).isNone && Doc.proper rest)
end

/-- Go type common.MapStr: none is the nil map. -/
abbrev MapStr := Option Doc

/-- Storing a MapStr in an interface slot (a nil map stays a typed nil). -/
def MapStr.toValue : MapStr → Value
  | none => .nilMapStr
  | some d => .mapStr d

/-- Go type map[string]string, nil or a list of bindings. -/
abbrev StringMap := Option (List (String × String))

/-- Go len of a map[string]string (zero for the nil map). -/
def StringMap.len : StringMap → Nat
  | none => 0
  | some kvs => kvs.length

/-- Modelled from the spec: common.DeDot (not part of the sources), the
de-dotting rule of the label policy: every structural separator "." of a key
is rewritten to "_" (the spec's example turns app.kubernetes.io/name into
app_kubernetes_io/name). -/
def DeDot (s : String) : String :=
  String.mk (s.toList.map fun c => if c = '.' then '_' else c)

end common

/-! ## safemapstr: safe nested-path assignment -/

namespace safemapstr

open common

/-- Splits a key at every "." into its path segments; there is always at least
one segment. -/
def splitDots (acc : List Char) : List Char → List String
  | [] => [String.mk acc.reverse]
  | c :: cs =>
    if c = '.' then String.mk acc.reverse :: splitDots [] cs
    else splitDots (c :: acc) cs

/-- The key a list of segments was split from. -/
def joinDots : List String → String
  | [] => ""
  | [k] => k
  | k :: k2 :: ks => k ++ "." ++ joinDots (k2 :: ks)

/-- The safe assignment along the segments that are left of a key, in the map
reached so far.  The rest of the key is first looked up as a whole: a slot that
holds a map is not replaced, the value goes under "value" inside it (a panic
when that map is a typed nil); any other slot is assigned.  Otherwise, with one
segment left the value is assigned there, and with more the first segment is
the next level: an existing map is entered, a missing level is created, a
scalar met on the way is kept under "value" of the level created in its place,
and entering a typed nil map ends in a panic at the first assignment. -/
def putPath (value : Value) : List String → Doc → Outcome Doc
  | [], data => .returned data
  | [k], data =>
    match data.get k with
    | some (.mapStr old) => .returned (data.set k (.mapStr (old.set "value" value)))
    | some .nilMapStr => .panicked
    | _ => .returned (data.set k value)
  | k :: k2 :: ks, data =>
    match data.get (joinDots (k :: k2 :: ks)) with
    | some (.mapStr old) =>
      .returned (data.set (joinDots (k :: k2 :: ks)) (.mapStr (old.set "value" value)))
    | some .nilMapStr => .panicked
    | some (.str _) => .returned (data.set (joinDots (k :: k2 :: ks)) value)
    | none =>
      match data.get k with
      | some (.mapStr sub) =>
        (putPath value (k2 :: ks) sub).andThen fun sub2 =>
          .returned (data.set k (.mapStr sub2))
      | some .nilMapStr => .panicked
      | some (.str s) =>
        (putPath value (k2 :: ks) (.cons "value" (.str s) .nil)).andThen fun sub2 =>
          .returned (data.set k (.mapStr sub2))
      | none =>
        (putPath value (k2 :: ks) .nil).andThen fun sub2 =>
          .returned (data.set k (.mapStr sub2))

/-- Modelled from the spec: safemapstr.Put (libbeat/common/safemapstr, not part
of the sources), "Put(document, path, value)", the safe nested-path
assignment: it inserts a value at a dotted path, creates intermediate levels as
needed and clobbers nothing, neither an unrelated sibling key nor a whole
object already sitting at the path (the value then goes under "value" inside
that object).  The Go function updates the document in place and its error
result is ignored by the callers; here the updated document is returned. -/
def Put (data : Doc) (key : String) (value : Value) : Outcome Doc :=
  putPath value (splitDots [] key.toList) data

end safemapstr

/-! ## kubernetes: watched objects -/

namespace kubernetes

open common

/-- Object metadata every watched object carries. -/
structure ObjectMeta where
  Name : String
  Namespace : String
  Labels : StringMap
  Annotations : StringMap
deriving DecidableEq

/-- Service spec; only the selector is read by the generator. -/
structure ServiceSpec where
  Selector : StringMap
deriving DecidableEq

/-- Go type kubernetes.Service. -/
structure Service where
  ObjectMeta : ObjectMeta
  Spec : ServiceSpec
deriving DecidableEq

/-- Go interface kubernetes.Resource with its dynamic type: a Service, or an
object of any other kind.  A Service is always a populated object here; a nil
pointer of Service type is not represented. -/
inductive Resource where
  | Service (svc : Service)
  | Other (kind : String) (om : ObjectMeta)
deriving DecidableEq

end kubernetes

/-! ## cache: the object store -/

namespace cache

/-- Value of type interface kept in a store: nil, a watched object, or anything
else. -/
inductive Item where
  | nil
  | object (obj : kubernetes.Resource)
  | foreign (tag : String)
deriving DecidableEq

/-- Go interface cache.Store, reduced to the one method the generator calls:
GetByKey returns the item, the exists flag and an error (none is a nil
error). -/
structure Store where
  GetByKey : String → Item × Bool × Option String

end cache

/-! ## metadata: the generators -/

namespace metadata

open common

/-- Configuration of the generic resource generator; only the label de-dotting
policy is read here. -/
structure Config where
  LabelsDedot : Bool
deriving DecidableEq

/-- Modelled from the spec: the generic resource generator (Go type Resource of
this package, not part of the sources; the service holds a pointer to this one
concrete type, service.go line 31).  Per the spec its GenerateECS and
GenerateK8s are total, side-effect-free and return a Document (never the nil
map); which document they return for an object, a kind label and a list of
options is left open, so both are fields.  The options are forwarded and never
interpreted, so their type is a parameter.  What the spec and the source fix
about these documents is kept as three facts: both are proper documents, that
is Go maps of scalars and maps with no typed nil map inside (spec, data model:
a hierarchical mapping with string keys), and the ECS fields stay outside the
Kubernetes subtree, so they never bind the top-level key "kubernetes"
(service.go lines 50-51: the fields under the kubernetes prefix come from
GenerateK8s, the ECS fields from GenerateECS; spec glossary: ECS fields are
top-level fields distinct from the nested Kubernetes-specific subtree). -/
structure Resource (Opt : Type) where
  config : Config
  GenerateECS : kubernetes.Resource → Doc
  GenerateK8s : String → kubernetes.Resource → List Opt → Doc
  ecs_proper : ∀ obj, (GenerateECS obj).proper = true
  ecs_outside_kubernetes : ∀ obj, (GenerateECS obj).get "kubernetes" = none
  k8s_proper : ∀ kind obj opts, (GenerateK8s kind obj opts).proper = true

/-- A call made to a collaborator. -/
inductive Call (Opt : Type) where
  | resourceGenerateECS (obj : kubernetes.Resource)
  | resourceGenerateK8s (kind : String) (obj : kubernetes.Resource) (opts : List Opt)
  | storeGetByKey (key : String)
deriving DecidableEq

/-- The outcome of a computation together with the collaborator calls made on
the way, in order. -/
structure Traced (Opt : Type) (α : Type) where
  val : Outcome α
  calls : List (Call Opt)

namespace Traced

/-- Returns a result without any call. -/
def ret {Opt α : Type} (a : α) : Traced Opt α := ⟨.returned a, []⟩

/-- A step that makes no call and may panic. -/
def lift {Opt α : Type} (x : Outcome α) : Traced Opt α := ⟨x, []⟩

/-- Sequencing: the calls of the first computation come first; nothing runs
after a panic. -/
def andThen {Opt α β : Type} (x : Traced Opt α) (f : α → Traced Opt β) : Traced Opt β :=
  match x.val with
  | .returned a => ⟨(f a).val, x.calls ++ (f a).calls⟩
  | .panicked => ⟨.panicked, x.calls⟩

end Traced

instance (Opt : Type) : Monad (Traced Opt) where
  pure := Traced.ret
  bind := Traced.andThen

/-- The call s.resource.GenerateECS(obj). -/
def Resource.callGenerateECS {Opt : Type} (r : Resource Opt) (obj : kubernetes.Resource) :
    Traced Opt Doc :=
  ⟨.returned (r.GenerateECS obj), [Call.resourceGenerateECS obj]⟩

/-- The call s.resource.GenerateK8s(kind, obj, opts...). -/
def Resource.callGenerateK8s {Opt : Type} (r : Resource Opt) (kind : String)
    (obj : kubernetes.Resource) (opts : List Opt) : Traced Opt Doc :=
  ⟨.returned (r.GenerateK8s kind obj opts), [Call.resourceGenerateK8s kind obj opts]⟩

/-- The call s.store.GetByKey(name). -/
def callGetByKey {Opt : Type} (store : cache.Store) (name : String) :
    Traced Opt (cache.Item × Bool × Option String) :=
  ⟨.returned (store.GetByKey name), [Call.storeGetByKey name]⟩

/-- The loop of GenerateMap over the bindings of the mapping. -/
def generateMapLoop (dedot : Bool) : List (String × String) → Doc → Outcome Doc
  | [], output => .returned output
  | kv :: rest, output =>
    (if dedot then .returned (output.set (DeDot kv.1) (.str kv.2))
      else safemapstr.Put output kv.1 (.str kv.2)).andThen
      (generateMapLoop dedot rest)

/-- Modelled from the spec: GenerateMap, the Label Map Builder of this package
(not part of the sources): "BuildMap(mapping, dedotPolicy) -> Document", a
possibly-empty nested-safe representation of a flat string-to-string mapping.
With the de-dotting policy every key is de-dotted and bound at top level;
without it every key is inserted with the safe nested-path assignment. -/
def GenerateMap (input : StringMap) (dedot : Bool) : Outcome Doc :=
  match input with
  | none => .returned .nil
  | some kvs => generateMapLoop dedot kvs .nil

/-- Go struct service: the store (none when nil) and the wrapped generic
resource generator. -/
structure service (Opt : Type) where
  store : Option cache.Store
  resource : Resource Opt

namespace service

variable {Opt : Type}

/-- GenerateECS generates service ECS metadata from a resource object
(service.go, lines 61-64). -/
def GenerateECS (s : service Opt) (obj : kubernetes.Resource) : Traced Opt Doc :=
  s.resource.callGenerateECS obj

/-- GenerateK8s generates service metadata from a resource object
(service.go, lines 66-85). -/
def GenerateK8s (s : service Opt) (obj : kubernetes.Resource) (opts : List Opt) :
    Traced Opt MapStr :=
  match obj with
  | .Service svc => do
    let out ← s.resource.callGenerateK8s "service" obj opts
    let selectors := svc.Spec.Selector
    if selectors.len = 0 then
      return some out
    let svcMap ← Traced.lift (GenerateMap selectors s.resource.config.LabelsDedot)
    if svcMap.len ≠ 0 then
      let out ← Traced.lift (safemapstr.Put out "selectors" (.mapStr svcMap))
      return some out
    return some out
  | _ => return none

/-- Generate generates service metadata from a resource object
(service.go, lines 42-59). -/
def Generate (s : service Opt) (obj : kubernetes.Resource) (opts : List Opt) :
    Traced Opt MapStr := do
  let ecsFields ← s.GenerateECS obj
  let k8s ← s.GenerateK8s obj opts
  let fields := Doc.cons "kubernetes" k8s.toValue .nil
  return some (fields.DeepUpdate ecsFields)

/-- GenerateFromName generates pod metadata from a service name, in the words
of the source comment (service.go, lines 87-103); what the code generates is
the metadata of the Service found under that name. -/
def GenerateFromName (s : service Opt) (name : String) (opts : List Opt) :
    Traced Opt MapStr :=
  match s.store with
  | none => return none
  | some store => do
    let (obj, ok, _) ← callGetByKey store name
    if ok then
      match obj with
      | .object (.Service svc) => s.GenerateK8s (.Service svc) opts
      | _ => return none
    else
      return none

end service

end metadata

/-! ## Facts about documents -/

namespace common

namespace Doc

theorem get_set_self (k : String) (v : Value) : ∀ m : Doc, (m.set k v).get k = some v
  | nil => by simp [set, get]
  | cons k2 v2 rest => by
    by_cases h : k2 = k
    · simp [set, get, h]
    · simp [set, get, h, get_set_self k v rest]

theorem get_set_of_ne {k k2 : String} (v : Value) (h : k2 ≠ k) :
    ∀ m : Doc, (m.set k v).get k2 = m.get k2
  | nil => by simp [set, get, Ne.symm h]
  | cons k3 v3 rest => by
    by_cases h3 : k3 = k
    · subst h3
      simp [set, get, Ne.symm h]
    · by_cases h4 : k3 = k2
      · subst h4
        simp [set, get, h3]
      · simp [set, get, h3, h4, get_set_of_ne v h rest]

theorem len_set_ne_zero (k : String) (v : Value) : ∀ m : Doc, (m.set k v).len ≠ 0
  | nil => by simp [set, len]
  | cons k2 v2 rest => by
    by_cases h : k2 = k <;> simp [set, len, h]

theorem mem_keys_set (k k2 : String) (v : Value) :
    ∀ m : Doc, k2 ∈ (m.set k v).keys ↔ k2 = k ∨ k2 ∈ m.keys
  | nil => by simp [set, keys]
  | cons k3 v3 rest => by
    by_cases h : k3 = k
    · subst h
      simp [set, keys]
    · simp only [set, h, if_false, keys, List.mem_cons, mem_keys_set k k2 v rest]
      tauto

theorem get_eq_none_iff (k : String) : ∀ m : Doc, m.get k = none ↔ k ∉ m.keys
  | nil => by simp [get, keys]
  | cons k2 v2 rest => by
    by_cases h : k2 = k
    · simp [get, keys, h]
    · simp [get, keys, h, get_eq_none_iff k rest, Ne.symm h]

/-- One step of the deep update is an assignment to the entry's key. -/
theorem DeepUpdate_cons (m : Doc) (k : String) (v : Value) (rest : Doc) :
    ∃ w : Value, m.DeepUpdate (cons k v rest) = (m.set k w).DeepUpdate rest := by
  rw [DeepUpdate.eq_def]
  exact ⟨_, rfl⟩

/-- A key the receiver does not bind takes the entry's value as it is. -/
theorem DeepUpdate_cons_of_absent (m : Doc) (k : String) (v : Value) (rest : Doc)
    (h : m.get k = none) :
    m.DeepUpdate (cons k v rest) = (m.set k v).DeepUpdate rest := by
  rw [DeepUpdate.eq_def]
  cases v <;> simp [h]

/-- Frame property of the deep update: a key the argument does not bind keeps
its slot. -/
theorem get_DeepUpdate_of_absent (k : String) :
    ∀ (d m : Doc), d.get k = none → (m.DeepUpdate d).get k = m.get k
  | nil, m, _ => by simp [DeepUpdate]
  | cons k2 v2 rest, m, h => by
    have hk : k2 ≠ k := by
      intro e
      simp [get, e] at h
    have hrest : rest.get k = none := by
      simpa [get, hk] using h
    obtain ⟨w, hw⟩ := DeepUpdate_cons m k2 v2 rest
    rw [hw, get_DeepUpdate_of_absent k rest (m.set k2 w) hrest]
    exact get_set_of_ne w (Ne.symm hk) m

/-- The deep update binds exactly the keys of the receiver and of the
argument. -/
theorem mem_keys_DeepUpdate (k : String) :
    ∀ (d m : Doc), k ∈ (m.DeepUpdate d).keys ↔ k ∈ m.keys ∨ k ∈ d.keys
  | nil, m => by simp [DeepUpdate, keys]
  | cons k2 v2 rest, m => by
    obtain ⟨w, hw⟩ := DeepUpdate_cons m k2 v2 rest
    rw [hw, mem_keys_DeepUpdate k rest (m.set k2 w), mem_keys_set]
    simp only [keys, List.mem_cons]
    tauto

theorem proper_cons {k : String} {v : Value} {rest : Doc} :
    (cons k v rest).proper = true ↔
      v.proper = true ∧ rest.get k = none ∧ rest.proper = true := by
  simp [Doc.proper]

/-- A proper document holds proper values. -/
theorem proper_get (k : String) :
    ∀ (d : Doc) (v : Value), d.proper = true → d.get k = some v → v.proper = true
  | nil, v, _, h => by simp [get] at h
  | cons k2 v2 rest, v, hp, h => by
    obtain ⟨hv2, _, hrest⟩ := proper_cons.1 hp
    by_cases hk : k2 = k
    · simp [get, hk] at h
      subst h
      exact hv2
    · simp only [get, hk, if_false] at h
      exact proper_get k rest v hrest h

/-- Assigning a proper value keeps a document proper. -/
theorem proper_set (k : String) (v : Value) (hv : v.proper = true) :
    ∀ d : Doc, d.proper = true → (d.set k v).proper = true
  | nil, _ => by simp [set, Doc.proper, hv, get]
  | cons k2 v2 rest, hp => by
    obtain ⟨hv2, hk2, hrest⟩ := proper_cons.1 hp
    by_cases hk : k2 = k
    · subst hk
      simp only [set, if_true]
      exact proper_cons.2 ⟨hv, hk2, hrest⟩
    · simp only [set, hk, if_false]
      refine proper_cons.2 ⟨hv2, ?_, proper_set k v hv rest hrest⟩
      rw [get_set_of_ne v hk rest]
      exact hk2

theorem get_append (k : String) :
    ∀ (m d : Doc), (m.append d).get k = (m.get k).orElse fun _ => d.get k
  | nil, d => by simp [append, get]
  | cons k2 v2 rest, d => by
    by_cases hk : k2 = k
    · simp [append, get, hk]
    · simp [append, get, hk, get_append k rest d]

/-- Assigning to a key that is not bound appends the binding. -/
theorem set_of_absent (k : String) (v : Value) :
    ∀ m : Doc, m.get k = none → m.set k v = m.append (cons k v nil)
  | nil, _ => by simp [set, append]
  | cons k2 v2 rest, h => by
    have hk : k2 ≠ k := by
      intro e
      simp [get, e] at h
    have hrest : rest.get k = none := by
      simpa [get, hk] using h
    simp [set, append, hk, set_of_absent k v rest hrest]

theorem append_nil : ∀ m : Doc, m.append nil = m
  | nil => rfl
  | cons k v rest => by simp [append, append_nil rest]

theorem append_cons (k : String) (v : Value) (rest : Doc) :
    ∀ m : Doc, (m.append (cons k v nil)).append rest = m.append (cons k v rest)
  | nil => by simp [append]
  | cons k2 v2 m => by simp [append, append_cons k v rest m]

/-- Deep-updating with a proper document whose keys the receiver does not bind
adds the entries of that document after those of the receiver, as they are. -/
theorem DeepUpdate_eq_append :
    ∀ (d m : Doc), d.proper = true → (∀ k, d.get k ≠ none → m.get k = none) →
      m.DeepUpdate d = m.append d
  | nil, m, _, _ => by simp [DeepUpdate, append_nil]
  | cons k v rest, m, hp, hdis => by
    obtain ⟨_, hk, hrest⟩ := proper_cons.1 hp
    have hm : m.get k = none := hdis k (by simp [get])
    rw [DeepUpdate_cons_of_absent m k v rest hm, set_of_absent k v m hm,
      DeepUpdate_eq_append rest (m.append (cons k v nil)) hrest ?_, append_cons]
    intro k2 hk2
    have hne : k ≠ k2 := by
      intro e
      subst e
      exact hk2 hk
    have hm2 : m.get k2 = none := hdis k2 (by simpa [get, hne] using hk2)
    simp [get_append, hm2, get, hne]

end Doc

theorem StringMap.exists_cons_of_len_ne_zero {sel : StringMap} (h : sel.len ≠ 0) :
    ∃ kv kvs, sel = some (kv :: kvs) := by
  cases sel with
  | none => simp [StringMap.len] at h
  | some l =>
    cases l with
    | nil => simp [StringMap.len] at h
    | cons kv kvs => exact ⟨kv, kvs, rfl⟩

end common

namespace safemapstr

open common

theorem splitDots_ne_nil : ∀ (cs acc : List Char), splitDots acc cs ≠ []
  | [], acc => by simp [splitDots]
  | c :: cs, acc => by
    by_cases h : c = '.'
    · simp [splitDots, h]
    · simp only [splitDots, h, if_false]
      exact splitDots_ne_nil cs (c :: acc)

/-- On a proper document the safe assignment of a proper value never panics;
it returns a proper document, which is not empty when there is a segment. -/
theorem putPath_proper (value : Value) (hv : value.proper = true) :
    ∀ (segs : List String) (data : Doc), data.proper = true →
      ∃ d2, putPath value segs data = .returned d2 ∧ d2.proper = true ∧
        (segs ≠ [] → d2.len ≠ 0)
  | [], data, hp => ⟨data, rfl, hp, fun h => absurd rfl h⟩
  | [k], data, hp => by
    simp only [putPath]
    cases hget : data.get k with
    | none => exact ⟨_, rfl, Doc.proper_set k value hv data hp, fun _ => Doc.len_set_ne_zero _ _ _⟩
    | some old =>
      cases old with
      | str s =>
        exact ⟨_, rfl, Doc.proper_set k value hv data hp, fun _ => Doc.len_set_ne_zero _ _ _⟩
      | nilMapStr =>
        have := Doc.proper_get k data _ hp hget
        simp [Value.proper] at this
      | mapStr old =>
        have hold : old.proper = true := by
          simpa [Value.proper] using Doc.proper_get k data _ hp hget
        refine ⟨_, rfl, Doc.proper_set k _ ?_ data hp, fun _ => Doc.len_set_ne_zero _ _ _⟩
        simpa [Value.proper] using Doc.proper_set "value" value hv old hold
  | k :: k2 :: ks, data, hp => by
    simp only [putPath]
    cases hget : data.get (joinDots (k :: k2 :: ks)) with
    | some old =>
      cases old with
      | str s =>
        exact ⟨_, rfl, Doc.proper_set _ value hv data hp, fun _ => Doc.len_set_ne_zero _ _ _⟩
      | nilMapStr =>
        have := Doc.proper_get _ data _ hp hget
        simp [Value.proper] at this
      | mapStr old =>
        have hold : old.proper = true := by
          simpa [Value.proper] using Doc.proper_get _ data _ hp hget
        refine ⟨_, rfl, Doc.proper_set _ _ ?_ data hp, fun _ => Doc.len_set_ne_zero _ _ _⟩
        simpa [Value.proper] using Doc.proper_set "value" value hv old hold
    | none =>
      cases hk : data.get k with
      | none =>
        obtain ⟨sub2, hsub, hp2, _⟩ := putPath_proper value hv (k2 :: ks) Doc.nil rfl
        refine ⟨data.set k (.mapStr sub2), ?_, Doc.proper_set k _ ?_ data hp,
          fun _ => Doc.len_set_ne_zero _ _ _⟩
        · simp [hsub, Outcome.andThen]
        · simpa [Value.proper] using hp2
      | some old =>
        cases old with
        | str s =>
          obtain ⟨sub2, hsub, hp2, _⟩ :=
            putPath_proper value hv (k2 :: ks) (Doc.cons "value" (.str s) .nil)
              (by simp [Doc.proper, Value.proper, Doc.get])
          refine ⟨data.set k (.mapStr sub2), ?_, Doc.proper_set k _ ?_ data hp,
            fun _ => Doc.len_set_ne_zero _ _ _⟩
          · simp [hsub, Outcome.andThen]
          · simpa [Value.proper] using hp2
        | nilMapStr =>
          have := Doc.proper_get _ data _ hp hk
          simp [Value.proper] at this
        | mapStr sub =>
          have hsubp : sub.proper = true := by
            simpa [Value.proper] using Doc.proper_get _ data _ hp hk
          obtain ⟨sub2, hsub, hp2, _⟩ := putPath_proper value hv (k2 :: ks) sub hsubp
          refine ⟨data.set k (.mapStr sub2), ?_, Doc.proper_set k _ ?_ data hp,
            fun _ => Doc.len_set_ne_zero _ _ _⟩
          · simp [hsub, Outcome.andThen]
          · simpa [Value.proper] using hp2

theorem Put_proper (data : Doc) (key : String) (value : Value)
    (hp : data.proper = true) (hv : value.proper = true) :
    ∃ d2, Put data key value = .returned d2 ∧ d2.proper = true ∧ d2.len ≠ 0 := by
  obtain ⟨d2, h1, h2, h3⟩ := putPath_proper value hv (splitDots [] key.toList) data hp
  exact ⟨d2, h1, h2, h3 (splitDots_ne_nil _ _)⟩

/-- At the one-segment key "selectors" of a proper document the safe
assignment touches that slot alone: a map already there receives the value
under "value", anything else is replaced by the value. -/
theorem Put_selectors (data : Doc) (value : Value) (hp : data.proper = true) :
    Put data "selectors" value =
      .returned (data.set "selectors"
        (match data.get "selectors" with
          | some (.mapStr old) => .mapStr (old.set "value" value)
          | _ => value)) := by
  have h : splitDots [] "selectors".toList = ["selectors"] := by decide
  show putPath value (splitDots [] "selectors".toList) data = _
  rw [h]
  cases hget : data.get "selectors" with
  | none => simp only [putPath, hget]
  | some old =>
    cases old with
    | str s => simp only [putPath, hget]
    | nilMapStr =>
      have := Doc.proper_get _ data _ hp hget
      simp [Value.proper] at this
    | mapStr old => simp only [putPath, hget]

end safemapstr

namespace metadata

open common

/-- The loop of GenerateMap never panics from a proper document and returns
one; the result is not empty when there is a binding to insert. -/
theorem generateMapLoop_proper (dedot : Bool) :
    ∀ (kvs : List (String × String)) (output : Doc), output.proper = true →
      ∃ d, generateMapLoop dedot kvs output = .returned d ∧ d.proper = true ∧
        ((kvs ≠ [] ∨ output.len ≠ 0) → d.len ≠ 0)
  | [], output, hp => ⟨output, rfl, hp, fun h => h.elim (fun h2 => absurd rfl h2) id⟩
  | kv :: rest, output, hp => by
    have hstep : ∃ o2, (if dedot then Outcome.returned (output.set (DeDot kv.1) (.str kv.2))
        else safemapstr.Put output kv.1 (.str kv.2)) = .returned o2 ∧
          o2.proper = true ∧ o2.len ≠ 0 := by
      by_cases hd : dedot = true
      · simp only [hd, if_true]
        exact ⟨_, rfl, Doc.proper_set (DeDot kv.1) (.str kv.2) rfl output hp,
          Doc.len_set_ne_zero _ _ _⟩
      · simp only [hd]
        exact safemapstr.Put_proper output kv.1 (.str kv.2) hp rfl
    obtain ⟨o2, ho2, hp2, hlen2⟩ := hstep
    obtain ⟨d, hd, hpd, hlen⟩ := generateMapLoop_proper dedot rest o2 hp2
    refine ⟨d, ?_, hpd, fun _ => hlen (Or.inr hlen2)⟩
    simp only [generateMapLoop, ho2, Outcome.andThen]
    exact hd

/-- GenerateMap always returns, and a non-empty mapping is never transformed
into an empty map. -/
theorem GenerateMap_returns (input : StringMap) (dedot : Bool) :
    ∃ gm, GenerateMap input dedot = .returned gm ∧ gm.proper = true ∧
      (input.len ≠ 0 → gm.len ≠ 0) := by
  cases input with
  | none => exact ⟨.nil, rfl, rfl, fun h => absurd rfl h⟩
  | some kvs =>
    obtain ⟨d, hd, hpd, hlen⟩ := generateMapLoop_proper dedot kvs .nil rfl
    refine ⟨d, hd, hpd, fun h => hlen (Or.inl ?_)⟩
    intro e
    subst e
    exact h rfl

namespace service

variable {Opt : Type}

/-- What GenerateK8s does for a Service with an empty selector mapping. -/
theorem GenerateK8s_Service_empty (s : service Opt) (svc : kubernetes.Service)
    (opts : List Opt) (h : svc.Spec.Selector.len = 0) :
    s.GenerateK8s (.Service svc) opts =
      ⟨.returned (some (s.resource.GenerateK8s "service" (.Service svc) opts)),
        [Call.resourceGenerateK8s "service" (.Service svc) opts]⟩ := by
  simp [GenerateK8s, bind, pure, Traced.andThen, Traced.ret, Resource.callGenerateK8s, h]

/-- What GenerateK8s does for a Service with a non-empty selector mapping. -/
theorem GenerateK8s_Service_nonempty (s : service Opt) (svc : kubernetes.Service)
    (opts : List Opt) (h : svc.Spec.Selector.len ≠ 0) (gm : Doc)
    (hgm : GenerateMap svc.Spec.Selector s.resource.config.LabelsDedot = .returned gm) :
    s.GenerateK8s (.Service svc) opts =
      ⟨.returned (some ((s.resource.GenerateK8s "service" (.Service svc) opts).set "selectors"
          (match (s.resource.GenerateK8s "service" (.Service svc) opts).get "selectors" with
            | some (.mapStr old) => .mapStr (old.set "value" (.mapStr gm))
            | _ => .mapStr gm))),
        [Call.resourceGenerateK8s "service" (.Service svc) opts]⟩ := by
  obtain ⟨gm2, hgm2, _, hlen⟩ :=
    GenerateMap_returns svc.Spec.Selector s.resource.config.LabelsDedot
  have e : gm2 = gm := by
    rw [hgm] at hgm2
    cases hgm2
    rfl
  subst e
  have hput := safemapstr.Put_selectors
    (s.resource.GenerateK8s "service" (.Service svc) opts) (.mapStr gm2)
    (s.resource.k8s_proper _ _ _)
  simp [GenerateK8s, bind, pure, Traced.andThen, Traced.ret, Traced.lift,
    Resource.callGenerateK8s, h, hgm, hlen h, hput]

/-- GenerateK8s never panics. -/
theorem GenerateK8s_returns (s : service Opt) (obj : kubernetes.Resource) (opts : List Opt) :
    ∃ k8s, (s.GenerateK8s obj opts).val = .returned k8s := by
  cases obj with
  | Other kind om => exact ⟨none, rfl⟩
  | Service svc =>
    by_cases h : svc.Spec.Selector.len = 0
    · exact ⟨_, by rw [GenerateK8s_Service_empty s svc opts h]⟩
    · obtain ⟨gm, hgm, _, _⟩ :=
        GenerateMap_returns svc.Spec.Selector s.resource.config.LabelsDedot
      exact ⟨_, by rw [GenerateK8s_Service_nonempty s svc opts h gm hgm]⟩

/-- What Generate returns, in terms of the two methods it calls. -/
theorem Generate_of_GenerateK8s (s : service Opt) (obj : kubernetes.Resource)
    (opts : List Opt) (k8s : MapStr) (h : (s.GenerateK8s obj opts).val = .returned k8s) :
    (s.Generate obj opts).val =
        .returned (some ((Doc.cons "kubernetes" k8s.toValue .nil).DeepUpdate
          (s.resource.GenerateECS obj))) ∧
      (s.Generate obj opts).calls = (s.GenerateECS obj).calls ++ (s.GenerateK8s obj opts).calls := by
  simp [Generate, GenerateECS, bind, pure, Traced.andThen, Traced.ret,
    Resource.callGenerateECS, h]

end service

end metadata

/-! ## Concrete generators, stores and objects -/

namespace samples

open common kubernetes cache metadata

/-- Metadata of the sample objects. -/
def webMeta : ObjectMeta := ⟨"web", "default", some [("team", "shop")], none⟩

/-- A Service selecting on two labels. -/
def webService : Service := ⟨webMeta, ⟨some [("app", "frontend"), ("tier", "web")]⟩⟩

/-- A Service with an empty (non-nil) selector mapping. -/
def headlessService : Service := ⟨webMeta, ⟨some []⟩⟩

/-- An object that is not a Service. -/
def webPod : kubernetes.Resource := .Other "pod" webMeta

/-- Metadata of any object. -/
def objectMeta : kubernetes.Resource → ObjectMeta
  | .Service svc => svc.ObjectMeta
  | .Other _ om => om

/-- An option of the sample generator: a (key, value) field that is added to
the base document with the safe assignment. -/
def withField (d : Doc) (o : String × String) : Doc :=
  match safemapstr.Put d o.1 (.str o.2) with
  | .returned d2 => d2
  | .panicked => d

/-- The common fields of the sample generator. -/
def commonFields (kind : String) (obj : kubernetes.Resource) : Doc :=
  .cons "name" (.str (objectMeta obj).Name)
    (.cons "namespace" (.str (objectMeta obj).Namespace)
      (.cons "kind" (.str kind) .nil))

theorem withField_proper (d : Doc) (o : String × String) (h : d.proper = true) :
    (withField d o).proper = true := by
  obtain ⟨d2, hd2, hp2, _⟩ := safemapstr.Put_proper d o.1 (.str o.2) h rfl
  simp [withField, hd2, hp2]

theorem foldl_withField_proper :
    ∀ (opts : List (String × String)) (d : Doc), d.proper = true →
      (opts.foldl withField d).proper = true
  | [], _, h => h
  | o :: opts, d, h => foldl_withField_proper opts (withField d o) (withField_proper d o h)

/-- The ECS fields of the sample generator. -/
def orchestratorFields : Doc :=
  .cons "orchestrator"
    (.mapStr (.cons "cluster" (.mapStr (.cons "name" (.str "prod") .nil)) .nil)) .nil

/-- A generic generator whose options are (key, value) fields added to the
common fields, and whose ECS fields are the orchestrator fields. -/
def fieldsResource : metadata.Resource (String × String) where
  config := ⟨false⟩
  GenerateECS := fun _ => orchestratorFields
  GenerateK8s := fun kind obj opts => opts.foldl withField (commonFields kind obj)
  ecs_proper := fun _ => (by decide : orchestratorFields.proper = true)
  ecs_outside_kubernetes := fun _ => (by decide : orchestratorFields.get "kubernetes" = none)
  k8s_proper := fun kind obj opts =>
    foldl_withField_proper opts (commonFields kind obj)
      (by simp [commonFields, Doc.proper, Value.proper, Doc.get])

/-- A store that holds webService under "default/web" and a pod under
"default/pod"; every other key is absent. -/
def webStore : Store where
  GetByKey := fun key =>
    if key = "default/web" then (.object (.Service webService), true, none)
    else if key = "default/pod" then (.object webPod, true, none)
    else (.nil, false, none)

/-- A store that reports a fault together with a found Service. -/
def faultyStore : Store where
  GetByKey := fun _ => (.object (.Service webService), true, some "index corrupted")

/-- Generator without a store. -/
def storeless : service (String × String) := ⟨none, fieldsResource⟩

/-- Generator over webStore. -/
def stored : service (String × String) := ⟨some webStore, fieldsResource⟩

/-- Generator over faultyStore. -/
def faulty : service (String × String) := ⟨some faultyStore, fieldsResource⟩

/-- What GenerateMap makes of the selector of webService. -/
def webSelectors : Doc := .cons "app" (.str "frontend") (.cons "tier" (.str "web") .nil)

/-- The document GenerateK8s returns for webService when an option has put the
field selectors.legacy into the base document. -/
def webWithLegacy : Doc :=
  .cons "name" (.str "web")
    (.cons "namespace" (.str "default")
      (.cons "kind" (.str "service")
        (.cons "selectors"
          (.mapStr (.cons "legacy" (.str "1") (.cons "value" (.mapStr webSelectors) .nil)))
          .nil)))

/-- The base document of headlessService when an option has put the field
selectors into it. -/
def headlessWithSelectors : Doc :=
  .cons "name" (.str "web")
    (.cons "namespace" (.str "default")
      (.cons "kind" (.str "service") (.cons "selectors" (.str "legacy") .nil)))

end samples

/-! ## The claims -/

namespace metadata

namespace service

open common samples

variable {Opt : Type}

/-- C1, as stated, fails: when the base document already holds a map under
"selectors" (here through the forwarded option selectors.legacy), the safe
assignment does not replace that map; the result of GenerateMap ends up under
"value" inside it, so the value of "selectors" is not the GenerateMap result. -/
theorem GenerateK8s_selectors_under_value :
    webService.Spec.Selector.len ≠ 0 ∧
      GenerateMap webService.Spec.Selector storeless.resource.config.LabelsDedot =
        .returned webSelectors ∧
      (storeless.GenerateK8s (.Service webService) [("selectors.legacy", "1")]).val =
        .returned (some webWithLegacy) ∧
      webWithLegacy.get "selectors" ≠ some (.mapStr webSelectors) := by
  decide

/-- C1 (amended): for every Service whose selector mapping is non-empty and
every list of options, GenerateMap of the selector mapping under the configured
LabelsDedot policy returns a map gm and GenerateK8s returns a document with a
top-level entry "selectors".  Its value is gm when the base document holds no
map under "selectors"; when the base document already holds a map there,
that map is kept and gm is bound in it under the key "value". -/
theorem GenerateK8s_selectors_entry (s : service Opt) (svc : kubernetes.Service)
    (opts : List Opt) (h : svc.Spec.Selector.len ≠ 0) :
    ∃ gm out : Doc,
      GenerateMap svc.Spec.Selector s.resource.config.LabelsDedot = .returned gm ∧
      (s.GenerateK8s (.Service svc) opts).val = .returned (some out) ∧
      ((∀ old, (s.resource.GenerateK8s "service" (.Service svc) opts).get "selectors" ≠
            some (.mapStr old)) →
          out.get "selectors" = some (.mapStr gm)) ∧
      (∀ old, (s.resource.GenerateK8s "service" (.Service svc) opts).get "selectors" =
            some (.mapStr old) →
          out.get "selectors" = some (.mapStr (old.set "value" (.mapStr gm)))) := by
  obtain ⟨gm, hgm, _, _⟩ := GenerateMap_returns svc.Spec.Selector s.resource.config.LabelsDedot
  refine ⟨gm, _, hgm, by rw [GenerateK8s_Service_nonempty s svc opts h gm hgm], ?_, ?_⟩
  · intro hno
    rw [Doc.get_set_self]
    cases hget : (s.resource.GenerateK8s "service" (.Service svc) opts).get "selectors" with
    | none => rfl
    | some v =>
      cases v with
      | str t => rfl
      | nilMapStr => rfl
      | mapStr old => exact absurd hget (hno old)
  · intro old hold
    rw [Doc.get_set_self, hold]

theorem GenerateK8s_selectors_entry_witness :
    webService.Spec.Selector.len ≠ 0 ∧
      ∃ out : Doc, (storeless.GenerateK8s (.Service webService) []).val = .returned (some out) ∧
        out.get "selectors" = some (.mapStr webSelectors) := by
  obtain ⟨gm, out, hgm, hout, hplain, _⟩ :=
    GenerateK8s_selectors_entry storeless webService [] (by decide)
  have e : gm = webSelectors := by
    have h2 : GenerateMap webService.Spec.Selector storeless.resource.config.LabelsDedot =
        .returned webSelectors := by decide
    rw [hgm] at h2
    cases h2
    rfl
  subst e
  have hbase : (storeless.resource.GenerateK8s "service" (.Service webService) []).get
      "selectors" = none := by decide
  exact ⟨by decide, out, hout, hplain (fun old hold => by rw [hbase] at hold; cases hold)⟩

/-- C2, as stated, fails: with an empty selector mapping the result is the base
document, and a base document that already binds "selectors" (here through a
forwarded option) keeps that key. -/
theorem GenerateK8s_empty_selector_keeps_base_key :
    headlessService.Spec.Selector.len = 0 ∧
      (storeless.GenerateK8s (.Service headlessService) [("selectors", "legacy")]).val =
        .returned (some headlessWithSelectors) ∧
      headlessWithSelectors.get "selectors" = some (.str "legacy") := by
  decide

/-- C2 (amended): for every Service whose selector mapping is empty (nil or of
length 0) and every list of options, GenerateK8s returns exactly the base
document the generic generator produces for the kind "service", the object and
the options, unchanged; it adds no "selectors" entry, so the result binds
"selectors" only if the base document does. -/
theorem GenerateK8s_empty_selector (s : service Opt) (svc : kubernetes.Service)
    (opts : List Opt) (h : svc.Spec.Selector.len = 0) :
    (s.GenerateK8s (.Service svc) opts).val =
        .returned (some (s.resource.GenerateK8s "service" (.Service svc) opts)) ∧
      ∀ out, (s.GenerateK8s (.Service svc) opts).val = .returned (some out) →
        out.get "selectors" =
          (s.resource.GenerateK8s "service" (.Service svc) opts).get "selectors" := by
  have hval : (s.GenerateK8s (.Service svc) opts).val =
      .returned (some (s.resource.GenerateK8s "service" (.Service svc) opts)) := by
    rw [GenerateK8s_Service_empty s svc opts h]
  refine ⟨hval, fun out hout => ?_⟩
  rw [hval] at hout
  cases hout
  rfl

theorem GenerateK8s_empty_selector_witness :
    headlessService.Spec.Selector.len = 0 ∧
      ((storeless.GenerateK8s (.Service headlessService) []).val =
          .returned (some (storeless.resource.GenerateK8s "service"
            (.Service headlessService) [])) ∧
        ∀ out, (storeless.GenerateK8s (.Service headlessService) []).val =
            .returned (some out) →
          out.get "selectors" =
            (storeless.resource.GenerateK8s "service" (.Service headlessService) []).get
              "selectors") :=
  ⟨by decide, GenerateK8s_empty_selector storeless headlessService [] (by decide)⟩

/-- C3: for every object that is not dynamically a Service and every list of
options, GenerateK8s returns nil and makes no call to the generic resource
generator (it makes no collaborator call at all). -/
theorem GenerateK8s_not_Service (s : service Opt) (obj : kubernetes.Resource)
    (opts : List Opt) (h : ∀ svc, obj ≠ .Service svc) :
    (s.GenerateK8s obj opts).val = .returned none ∧ (s.GenerateK8s obj opts).calls = [] := by
  cases obj with
  | Service svc => exact absurd rfl (h svc)
  | Other kind om => exact ⟨rfl, rfl⟩

theorem GenerateK8s_not_Service_witness :
    (∀ svc, webPod ≠ .Service svc) ∧
      ((storeless.GenerateK8s webPod [("node", "n1")]).val = .returned none ∧
        (storeless.GenerateK8s webPod [("node", "n1")]).calls = []) :=
  ⟨(fun _ h => by cases h),
    GenerateK8s_not_Service storeless webPod [("node", "n1")] (fun _ h => by cases h)⟩

/-- C4: for every store key and every list of options, GenerateFromName returns
nil when no store was configured, nil when the lookup reports not found, nil
when the found value is not dynamically a Service, and otherwise the result of
GenerateK8s called directly on the found Service. -/
theorem GenerateFromName_cases (s : service Opt) (name : String) (opts : List Opt) :
    (s.store = none → (s.GenerateFromName name opts).val = .returned none) ∧
      (∀ store, s.store = some store →
        ((store.GetByKey name).2.1 = false →
            (s.GenerateFromName name opts).val = .returned none) ∧
        ((store.GetByKey name).2.1 = true →
            (∀ svc, (store.GetByKey name).1 ≠ .object (.Service svc)) →
            (s.GenerateFromName name opts).val = .returned none) ∧
        (∀ svc, (store.GetByKey name).2.1 = true →
            (store.GetByKey name).1 = .object (.Service svc) →
            (s.GenerateFromName name opts).val = (s.GenerateK8s (.Service svc) opts).val)) := by
  refine ⟨fun hs => ?_, fun store hs => ⟨fun hok => ?_, fun hok hobj => ?_, fun svc hok hobj => ?_⟩⟩
  · simp only [GenerateFromName, hs]
    rfl
  · rcases hget : store.GetByKey name with ⟨item, ok, err⟩
    rw [hget] at hok
    simp only at hok
    subst hok
    simp [GenerateFromName, hs, bind, pure, Traced.andThen, Traced.ret, callGetByKey, hget]
  · rcases hget : store.GetByKey name with ⟨item, ok, err⟩
    rw [hget] at hok hobj
    simp only at hok hobj
    subst hok
    cases item with
    | nil =>
      simp [GenerateFromName, hs, bind, pure, Traced.andThen, Traced.ret, callGetByKey, hget]
    | foreign tag =>
      simp [GenerateFromName, hs, bind, pure, Traced.andThen, Traced.ret, callGetByKey, hget]
    | object obj =>
      cases obj with
      | Service svc => exact absurd rfl (hobj svc)
      | Other kind om =>
        simp [GenerateFromName, hs, bind, pure, Traced.andThen, Traced.ret, callGetByKey, hget]
  · rcases hget : store.GetByKey name with ⟨item, ok, err⟩
    rw [hget] at hok hobj
    simp only at hok hobj
    subst hok hobj
    simp [GenerateFromName, hs, bind, pure, Traced.andThen, Traced.ret, callGetByKey, hget]

theorem GenerateFromName_cases_witness :
    (storeless.GenerateFromName "default/web" []).val = .returned none ∧
      (stored.GenerateFromName "default/gone" []).val = .returned none ∧
      (stored.GenerateFromName "default/pod" []).val = .returned none ∧
      (stored.GenerateFromName "default/web" []).val =
        (stored.GenerateK8s (.Service webService) []).val :=
  ⟨(GenerateFromName_cases storeless "default/web" []).1 rfl,
    ((GenerateFromName_cases stored "default/gone" []).2 webStore rfl).1 (by decide),
    ((GenerateFromName_cases stored "default/pod" []).2 webStore rfl).2.1 (by decide)
      (fun svc h => by
        have h2 : cache.Item.object webPod = .object (.Service svc) := h
        cases h2),
    ((GenerateFromName_cases stored "default/web" []).2 webStore rfl).2.2 webService
      (by decide) (by decide)⟩

/-- C5, as stated, fails: a store that reports a fault together with a found
Service does not make GenerateFromName return nil; the error value is
discarded and the Service's metadata is generated. -/
theorem GenerateFromName_fault_with_found_Service :
    (faultyStore.GetByKey "default/web").2.2 = some "index corrupted" ∧
      (faulty.GenerateFromName "default/web" []).val ≠ .returned none ∧
      (faulty.GenerateFromName "default/web" []).val =
        (faulty.GenerateK8s (.Service webService) []).val := by
  decide

/-- C5 (amended): whenever the store's GetByKey reports a non-nil error,
GenerateFromName discards it and decides on the found flag and the object
alone: it returns nil when the found flag is false or the object is not
dynamically a Service, and the result of GenerateK8s on the object when the
found flag is true and the object is a Service. -/
theorem GenerateFromName_error_discarded (s : service Opt) (store : cache.Store)
    (name : String) (opts : List Opt) (item : cache.Item) (found : Bool) (err : String)
    (hs : s.store = some store) (hget : store.GetByKey name = (item, found, some err)) :
    (s.GenerateFromName name opts).val =
      if found then
        match item with
        | .object (.Service svc) => (s.GenerateK8s (.Service svc) opts).val
        | _ => .returned none
      else .returned none := by
  simp only [GenerateFromName, hs, bind, pure, Traced.andThen, Traced.ret, callGetByKey, hget]
  cases found with
  | false => simp
  | true =>
    cases item with
    | nil => simp
    | foreign tag => simp
    | object obj =>
      cases obj with
      | Service svc => simp
      | Other kind om => simp

theorem GenerateFromName_error_discarded_witness :
    faulty.store = some faultyStore ∧
      faultyStore.GetByKey "default/web" =
        (.object (.Service webService), true, some "index corrupted") ∧
      (faulty.GenerateFromName "default/web" []).val =
        if true then
          match cache.Item.object (.Service webService) with
          | .object (.Service svc) => (faulty.GenerateK8s (.Service svc) []).val
          | _ => .returned none
        else .returned none :=
  ⟨rfl, rfl, GenerateFromName_error_discarded faulty faultyStore "default/web" []
    (.object (.Service webService)) true "index corrupted" rfl rfl⟩

/-- C6: for every object and every list of options, GenerateK8s returns a
result and Generate returns a document whose value under the top-level key
"kubernetes" equals that result: the deep merge of the ECS fields leaves the
Kubernetes subtree and all of its keys untouched, for every document the
generic generator's GenerateECS can return (none of them binds the top-level
key "kubernetes"). -/
theorem Generate_kubernetes_untouched (s : service Opt) (obj : kubernetes.Resource)
    (opts : List Opt) :
    ∃ (k8s : MapStr) (doc : Doc), (s.GenerateK8s obj opts).val = .returned k8s ∧
      (s.Generate obj opts).val = .returned (some doc) ∧
      doc.get "kubernetes" = some k8s.toValue := by
  obtain ⟨k8s, hk8s⟩ := GenerateK8s_returns s obj opts
  refine ⟨k8s, _, hk8s, (Generate_of_GenerateK8s s obj opts k8s hk8s).1, ?_⟩
  rw [Doc.get_DeepUpdate_of_absent "kubernetes" _ _ (s.resource.ecs_outside_kubernetes obj)]
  simp [Doc.get]

theorem Generate_kubernetes_untouched_witness :
    ∃ (k8s : MapStr) (doc : Doc),
      (storeless.GenerateK8s (.Service webService) [("selectors.legacy", "1")]).val =
        .returned k8s ∧
      (storeless.Generate (.Service webService) [("selectors.legacy", "1")]).val =
        .returned (some doc) ∧
      doc.get "kubernetes" = some k8s.toValue :=
  Generate_kubernetes_untouched storeless (.Service webService) [("selectors.legacy", "1")]

/-- C7: for every object that is not dynamically a Service and every list of
options, Generate returns a non-nil document in which the value under
"kubernetes" is nil and which carries the ECS fields: it is the entry
"kubernetes" bound to nil followed by the document of the generic generator's
GenerateECS, so every other key reads as in that document; the generic
generator's GenerateK8s is not called. -/
theorem Generate_not_Service (s : service Opt) (obj : kubernetes.Resource)
    (opts : List Opt) (hobj : ∀ svc, obj ≠ .Service svc) :
    ∃ doc : Doc, (s.Generate obj opts).val = .returned (some doc) ∧
      doc = .cons "kubernetes" .nilMapStr (s.resource.GenerateECS obj) ∧
      doc.get "kubernetes" = some .nilMapStr ∧
      (∀ k, k ≠ "kubernetes" → doc.get k = (s.resource.GenerateECS obj).get k) ∧
      (s.Generate obj opts).calls = [Call.resourceGenerateECS obj] := by
  have hk8s : s.GenerateK8s obj opts = ⟨.returned none, []⟩ := by
    cases obj with
    | Service svc => exact absurd rfl (hobj svc)
    | Other kind om => rfl
  have hval := Generate_of_GenerateK8s s obj opts none (by rw [hk8s])
  have hdoc : (Doc.cons "kubernetes" (MapStr.toValue none) .nil).DeepUpdate
      (s.resource.GenerateECS obj) =
        .cons "kubernetes" .nilMapStr (s.resource.GenerateECS obj) := by
    rw [Doc.DeepUpdate_eq_append _ _ (s.resource.ecs_proper obj)]
    · rfl
    · intro k hk
      have hne : "kubernetes" ≠ k := by
        intro e
        subst e
        exact hk (s.resource.ecs_outside_kubernetes obj)
      simp [Doc.get, hne]
  refine ⟨_, hval.1.trans (by rw [hdoc]), rfl, by simp [Doc.get], ?_, ?_⟩
  · intro k hk
    simp [Doc.get, Ne.symm hk]
  · rw [hval.2, hk8s]
    rfl

theorem Generate_not_Service_witness :
    (∀ svc, webPod ≠ .Service svc) ∧
      ∃ doc : Doc, (storeless.Generate webPod []).val = .returned (some doc) ∧
        doc = .cons "kubernetes" .nilMapStr (storeless.resource.GenerateECS webPod) ∧
        doc.get "kubernetes" = some .nilMapStr ∧
        (∀ k, k ≠ "kubernetes" → doc.get k = (storeless.resource.GenerateECS webPod).get k) ∧
        (storeless.Generate webPod []).calls = [Call.resourceGenerateECS webPod] :=
  ⟨(fun _ h => by cases h),
    Generate_not_Service storeless webPod [] (fun _ h => by cases h)⟩

/-- C8: for every object, Service or not, the service generator's GenerateECS
returns exactly what the generic resource generator's GenerateECS returns for
it, and does nothing but that one call: no type check, no field added, removed
or changed. -/
theorem GenerateECS_passthrough (s : service Opt) (obj : kubernetes.Resource) :
    (s.GenerateECS obj).val = .returned (s.resource.GenerateECS obj) ∧
      (s.GenerateECS obj).calls = [Call.resourceGenerateECS obj] :=
  ⟨rfl, rfl⟩

/-- C9: for every Service with a non-empty selector mapping and every list of
options, every top-level key other than "selectors" is bound in the result of
GenerateK8s exactly as in the base document of the generic generator (same
value, or absent in both), so no key other than "selectors" is added, removed
or overwritten. -/
theorem GenerateK8s_selectors_frame (s : service Opt) (svc : kubernetes.Service)
    (opts : List Opt) (h : svc.Spec.Selector.len ≠ 0) :
    ∃ out : Doc, (s.GenerateK8s (.Service svc) opts).val = .returned (some out) ∧
      (∀ k, k ≠ "selectors" →
        out.get k = (s.resource.GenerateK8s "service" (.Service svc) opts).get k) ∧
      (∀ k, k ≠ "selectors" →
        (k ∈ out.keys ↔ k ∈ (s.resource.GenerateK8s "service" (.Service svc) opts).keys)) := by
  obtain ⟨gm, hgm, _, _⟩ := GenerateMap_returns svc.Spec.Selector s.resource.config.LabelsDedot
  refine ⟨_, by rw [GenerateK8s_Service_nonempty s svc opts h gm hgm], ?_, ?_⟩
  · intro k hk
    exact Doc.get_set_of_ne _ hk _
  · intro k hk
    rw [Doc.mem_keys_set]
    simp [hk]

theorem GenerateK8s_selectors_frame_witness :
    webService.Spec.Selector.len ≠ 0 ∧
      ∃ out : Doc,
        (storeless.GenerateK8s (.Service webService) [("node", "n1")]).val =
          .returned (some out) ∧
        (∀ k, k ≠ "selectors" →
          out.get k =
            (storeless.resource.GenerateK8s "service" (.Service webService) [("node", "n1")]).get
              k) ∧
        (∀ k, k ≠ "selectors" →
          (k ∈ out.keys ↔
            k ∈ (storeless.resource.GenerateK8s "service" (.Service webService)
              [("node", "n1")]).keys)) :=
  ⟨by decide,
    GenerateK8s_selectors_frame storeless webService [("node", "n1")] (by decide)⟩

/-- C10: for every object and every list of options, Generate returns the
document with the single entry "kubernetes" bound to GenerateK8s(obj, opts...),
deep-updated with GenerateECS(obj), having called GenerateECS first; the result
always binds the top-level key "kubernetes", and every top-level key of
GenerateECS(obj) is a top-level key of the result. -/
theorem Generate_composition (s : service Opt) (obj : kubernetes.Resource) (opts : List Opt) :
    ∃ (ecs : Doc) (k8s : MapStr) (doc : Doc),
      (s.GenerateECS obj).val = .returned ecs ∧
      (s.GenerateK8s obj opts).val = .returned k8s ∧
      (s.Generate obj opts).val = .returned (some doc) ∧
      doc = (Doc.cons "kubernetes" k8s.toValue .nil).DeepUpdate ecs ∧
      (s.Generate obj opts).calls = (s.GenerateECS obj).calls ++ (s.GenerateK8s obj opts).calls ∧
      "kubernetes" ∈ doc.keys ∧
      ∀ k, k ∈ ecs.keys → k ∈ doc.keys := by
  obtain ⟨k8s, hk8s⟩ := GenerateK8s_returns s obj opts
  obtain ⟨hval, hcalls⟩ := Generate_of_GenerateK8s s obj opts k8s hk8s
  refine ⟨s.resource.GenerateECS obj, k8s, _, rfl, hk8s, hval, rfl, hcalls, ?_, ?_⟩
  · rw [Doc.mem_keys_DeepUpdate]
    exact Or.inl (by simp [Doc.keys])
  · intro k hk
    rw [Doc.mem_keys_DeepUpdate]
    exact Or.inr hk

end service

end metadata

end Beats
